import Mathlib

/-!
Verification development for the sandboxed stack-unwinder subsystem
(`sandbox2/stack_trace.cc`) and the `sapi::v::Pointable` pointer-caching
utility (`sandboxed_api/var_pointable.h`).

The C++ sources are shallowly embedded: pure functions become Lean
functions, and the environment-dependent parts (filesystem operations,
the sandbox lifecycle, the duplex channel) are modelled by explicit
records of oracles describing whether each external step succeeds,
together with an explicit event trace recording the order of side
effects.
-/

/- ------------------------------------------------------------------ -/
/- Decimal rendering and parsing helpers.                              -/
/- ------------------------------------------------------------------ -/

/-- Fuel-driven decimal rendering worker (the fuel makes the recursion
structural, so that concrete values reduce inside the kernel). -/
def decimalCharsAux : Nat → Nat → List Char
  | 0, _ => []
  | fuel + 1, n =>
    if n < 10 then [Nat.digitChar n]
    else decimalCharsAux fuel (n / 10) ++ [Nat.digitChar (n % 10)]

/-- Decimal digit characters of a natural number, most significant
first.  This is the standard decimal rendering (no leading zeros,
`"0"` for zero), mirroring what `absl::StrCat` produces for an `int`
in `CompactStackTrace`. -/
def decimalChars (n : Nat) : List Char :=
  decimalCharsAux (n + 1) n

theorem decimalCharsAux_stable (n : Nat) : ∀ f1 f2, n < f1 → n < f2 →
    decimalCharsAux f1 n = decimalCharsAux f2 n := by
  induction n using Nat.strong_induction_on with
  | _ n ih =>
    intro f1 f2 h1 h2
    cases f1 with
    | zero => omega
    | succ g1 =>
      cases f2 with
      | zero => omega
      | succ g2 =>
        simp only [decimalCharsAux]
        by_cases h : n < 10
        · simp [h]
        · simp only [h, if_false]
          have hlt : n / 10 < n := Nat.div_lt_self (by omega) (by omega)
          rw [ih (n / 10) hlt g1 g2 (by omega) (by omega)]

theorem decimalChars_eq (n : Nat) :
    decimalChars n = if n < 10 then [Nat.digitChar n]
      else decimalChars (n / 10) ++ [Nat.digitChar (n % 10)] := by
  show decimalCharsAux (n + 1) n = _
  by_cases h : n < 10
  · simp [decimalCharsAux, h]
  · simp only [decimalCharsAux, h, if_false]
    have hlt : n / 10 < n := Nat.div_lt_self (by omega) (by omega)
    rw [decimalCharsAux_stable (n / 10) n (n / 10 + 1) hlt (by omega)]
    rfl

/-- Decimal string of a natural number. -/
def decimalString (n : Nat) : String :=
  String.mk (decimalChars n)

/-- `10 ^ (number of decimal digits of n)`, defined by the same
recursion as `decimalChars`. -/
def pow10 (n : Nat) : Nat :=
  if n < 10 then 10 else 10 * pow10 (n / 10)
termination_by n
decreasing_by
  exact Nat.div_lt_self (by omega) (by omega)

/-- Value of a decimal digit character, if it is one. -/
def charDigit (c : Char) : Option Nat :=
  if '0' ≤ c ∧ c ≤ '9' then some (c.toNat - '0'.toNat) else none

/-- Parse a big-endian list of decimal digit characters, folding into an
accumulator.  Fails if any character is not a digit. -/
def parseDigits : List Char → Nat → Option Nat
  | [], acc => some acc
  | c :: cs, acc =>
    match charDigit c with
    | some d => parseDigits cs (acc * 10 + d)
    | none => none

/-- Strip an expected list of characters from the front of a list,
returning the remainder when the whole expected list matched. -/
def stripPre : List Char → List Char → Option (List Char)
  | [], d => some d
  | _ :: _, [] => none
  | c :: p, e :: d => if c = e then stripPre p d else none

theorem stripPre_append (p : List Char) : ∀ rest, stripPre p (p ++ rest) = some rest := by
  induction p with
  | nil => intro rest; rfl
  | cons c p ih =>
    intro rest
    simp [stripPre, ih]

theorem parseDigits_append (xs : List Char) :
    ∀ ys acc, parseDigits (xs ++ ys) acc =
      match parseDigits xs acc with
      | some a => parseDigits ys a
      | none => none := by
  induction xs with
  | nil => intro ys acc; rfl
  | cons c cs ih =>
    intro ys acc
    simp only [List.cons_append, parseDigits]
    cases charDigit c with
    | none => rfl
    | some d => exact ih ys (acc * 10 + d)

theorem charDigit_digitChar : ∀ d, d < 10 → charDigit (Nat.digitChar d) = some d := by
  decide

theorem decimalChars_ne_nil (n : Nat) : decimalChars n ≠ [] := by
  rw [decimalChars_eq]
  by_cases h : n < 10
  · simp [h]
  · simp [h]

theorem parseDigits_decimalChars (n : Nat) :
    ∀ acc, parseDigits (decimalChars n) acc = some (acc * pow10 n + n) := by
  induction n using Nat.strong_induction_on with
  | _ n ih =>
    intro acc
    rw [decimalChars_eq, pow10]
    by_cases h : n < 10
    · simp only [h, dite_true, if_true]
      simp [parseDigits, charDigit_digitChar n h]
    · simp only [h, dite_false, if_false]
      rw [parseDigits_append]
      have hdiv : n / 10 < n := Nat.div_lt_self (by omega) (by omega)
      rw [ih (n / 10) hdiv acc]
      have hmod : n % 10 < 10 := Nat.mod_lt _ (by omega)
      simp only [parseDigits, charDigit_digitChar _ hmod]
      have hqr : 10 * (n / 10) + n % 10 = n := Nat.div_add_mod n 10
      congr 1
      have : (acc * pow10 (n / 10) + n / 10) * 10 + n % 10 =
          acc * (10 * pow10 (n / 10)) + (10 * (n / 10) + n % 10) := by ring
      rw [this, hqr]

/- ------------------------------------------------------------------ -/
/- Repeat-marker strings of `CompactStackTrace`.                       -/
/- ------------------------------------------------------------------ -/

/-- The synthetic marker frame emitted by `CompactStackTrace`
(`absl::StrCat("(previous frame repeated ", seen, " times)")`). -/
def markerStr (n : Nat) : String :=
  "(previous frame repeated " ++ decimalString n ++ " times)"

/-- The fixed character prefix of a repeat marker. -/
def markerPre : List Char := "(previous frame repeated ".data

/-- The fixed character suffix of a repeat marker. -/
def markerSuf : List Char := " times)".data

/-- Recognize a repeat-marker frame and recover its repeat count.  This
is a specification-side inverse used to state the expansion round-trip
property of `CompactStackTrace`. -/
def decodeMarker (s : String) : Option Nat :=
  match stripPre markerPre s.data with
  | none => none
  | some r =>
    match stripPre markerSuf.reverse r.reverse with
    | none => none
    | some midRev =>
      if midRev = [] then none else parseDigits midRev.reverse 0

theorem markerStr_data (n : Nat) :
    (markerStr n).data = markerPre ++ (decimalChars n ++ markerSuf) := by
  show (String.append "(previous frame repeated "
      (String.append (decimalString n) " times)")).data = _
  cases hd : decimalString n with
  | mk l =>
    have hl : l = decimalChars n := by
      have := congrArg String.data hd
      simpa [decimalString] using this.symm
    simp [String.append, markerPre, markerSuf, hl]

theorem decodeMarker_markerStr (n : Nat) : decodeMarker (markerStr n) = some n := by
  unfold decodeMarker
  rw [markerStr_data, stripPre_append]
  simp only [List.reverse_append]
  rw [stripPre_append]
  simp only [List.reverse_reverse]
  rw [if_neg (by simpa using decimalChars_ne_nil n)]
  rw [parseDigits_decimalChars]
  simp

/- ------------------------------------------------------------------ -/
/- `CompactStackTrace` (sandbox2/stack_trace.cc).                      -/
/- ------------------------------------------------------------------ -/

/-- The `add_repeats` lambda of `CompactStackTrace`: append a repeat
marker to the accumulated output when `seen` is nonzero. -/
def addRepeats (acc : List String) (seen : Nat) : List String :=
  if seen ≠ 0 then acc ++ [markerStr seen] else acc

/-- The main loop of `CompactStackTrace`, with the `compact_trace`
vector as an explicit accumulator, `prev` the previously pushed frame
and `seen` the number of repeats of `prev` observed so far. -/
def compactLoopAcc : List String → Option String → Nat → List String → List String
  | [], _, seen, acc => addRepeats acc seen
  | f :: rest, prev, seen, acc =>
    if prev = some f then compactLoopAcc rest prev (seen + 1) acc
    else compactLoopAcc rest (some f) 0 (addRepeats acc seen ++ [f])

/-- `sandbox2::CompactStackTrace`. -/
def CompactStackTrace (stack_trace : List String) : List String :=
  compactLoopAcc stack_trace none 0 []

/-- Accumulator-free form of the repeat marker emission. -/
def repeatsTail (seen : Nat) : List String :=
  if seen ≠ 0 then [markerStr seen] else []

/-- Accumulator-free form of the `CompactStackTrace` loop. -/
def compactLoop : List String → Option String → Nat → List String
  | [], _, seen => repeatsTail seen
  | f :: rest, prev, seen =>
    if prev = some f then compactLoop rest prev (seen + 1)
    else repeatsTail seen ++ f :: compactLoop rest (some f) 0

theorem addRepeats_eq (acc : List String) (seen : Nat) :
    addRepeats acc seen = acc ++ repeatsTail seen := by
  unfold addRepeats repeatsTail
  by_cases h : seen ≠ 0 <;> simp [h]

theorem compactLoopAcc_eq : ∀ (l : List String) (prev : Option String) (seen : Nat)
    (acc : List String), compactLoopAcc l prev seen acc = acc ++ compactLoop l prev seen := by
  intro l
  induction l with
  | nil => intro prev seen acc; simp [compactLoopAcc, compactLoop, addRepeats_eq]
  | cons f rest ih =>
    intro prev seen acc
    simp only [compactLoopAcc, compactLoop]
    by_cases h : prev = some f
    · simp [h, ih]
    · simp [h, ih, addRepeats_eq]

theorem CompactStackTrace_eq_loop (l : List String) :
    CompactStackTrace l = compactLoop l none 0 := by
  simp [CompactStackTrace, compactLoopAcc_eq]

/- ------------------------------------------------------------------ -/
/- Runs-based specification model of `CompactStackTrace`.              -/
/- ------------------------------------------------------------------ -/

/-- Split a list into the number of leading elements equal to `s` and
the remainder (the first element of the remainder, if any, differs
from `s`). -/
def splitRun (s : String) : List String → Nat × List String
  | [] => (0, [])
  | t :: rest =>
    if t = s then ((splitRun s rest).1 + 1, (splitRun s rest).2)
    else (0, t :: rest)

theorem splitRun_length (s : String) : ∀ l : List String,
    (splitRun s l).2.length ≤ l.length := by
  intro l
  induction l with
  | nil => simp [splitRun]
  | cons t rest ih =>
    by_cases h : t = s
    · simp only [splitRun, h, if_true]
      exact Nat.le_succ_of_le ih
    · simp [splitRun, h]

theorem splitRun_recon (s : String) : ∀ l : List String,
    l = List.replicate (splitRun s l).1 s ++ (splitRun s l).2 := by
  intro l
  induction l with
  | nil => rfl
  | cons t rest ih =>
    by_cases h : t = s
    · simp only [splitRun, h, if_true, List.replicate_succ, List.cons_append]
      exact congrArg (s :: ·) ih
    · simp [splitRun, h]

theorem splitRun_head (s : String) : ∀ (l : List String) (t : String),
    (splitRun s l).2.head? = some t → t ≠ s := by
  intro l
  induction l with
  | nil => intro t ht; simp [splitRun] at ht
  | cons u rest ih =>
    intro t ht
    by_cases h : u = s
    · exact ih t (by simpa [splitRun, h] using ht)
    · simp only [splitRun, h, if_false, List.head?_cons, Option.some.injEq] at ht
      subst ht; exact h

theorem splitRun_mem (s : String) : ∀ (l : List String) (x : String),
    x ∈ (splitRun s l).2 → x ∈ l := by
  intro l
  induction l with
  | nil => intro x hx; simp [splitRun] at hx
  | cons u rest ih =>
    intro x hx
    by_cases h : u = s
    · simp only [splitRun, h, if_true] at hx
      exact List.mem_cons_of_mem u (ih x hx)
    · simpa [splitRun, h] using hx

/-- Modelled from the spec: the Frame Compactor contract of section 4.1,
replacing each maximal run of identical consecutive frames by its first
occurrence followed, only when the run length minus one is nonzero, by a
single marker frame encoding the repeat count (run length minus one). -/
def compactSpecModel : List String → List String
  | [] => []
  | s :: rest =>
    s :: ((if (splitRun s rest).1 ≠ 0 then [markerStr (splitRun s rest).1] else []) ++
      compactSpecModel (splitRun s rest).2)
termination_by l => l.length
decreasing_by
  simp only [List.length_cons]
  exact Nat.lt_succ_of_le (splitRun_length _ _)

theorem compactSpecModel_nil : compactSpecModel [] = [] := by
  rw [compactSpecModel]

theorem compactSpecModel_cons (s : String) (rest : List String) :
    compactSpecModel (s :: rest) =
      s :: (repeatsTail (splitRun s rest).1 ++ compactSpecModel (splitRun s rest).2) := by
  rw [compactSpecModel, repeatsTail]

theorem compactLoop_cons_ne (t : String) (rest : List String) (prev : Option String)
    (k : Nat) (h : prev ≠ some t) :
    compactLoop (t :: rest) prev k = repeatsTail k ++ t :: compactLoop rest (some t) 0 := by
  simp [compactLoop, h]

theorem compactLoop_run (s : String) : ∀ (l : List String) (k : Nat),
    compactLoop l (some s) k =
      repeatsTail (k + (splitRun s l).1) ++ compactLoop (splitRun s l).2 none 0 := by
  intro l
  induction l with
  | nil => intro k; simp [compactLoop, splitRun, repeatsTail]
  | cons t rest ih =>
    intro k
    by_cases h : t = s
    · subst h
      have h1 : compactLoop (t :: rest) (some t) k = compactLoop rest (some t) (k + 1) := by
        simp [compactLoop]
      have h2 : splitRun t (t :: rest) = ((splitRun t rest).1 + 1, (splitRun t rest).2) := by
        simp [splitRun]
      rw [h1, h2, ih (k + 1)]
      have h3 : k + 1 + (splitRun t rest).1 = k + ((splitRun t rest).1 + 1) := by omega
      rw [h3]
    · have hcond : (some s : Option String) ≠ some t := by
        simp only [ne_eq, Option.some.injEq]
        intro he; exact h he.symm
      have h2 : splitRun s (t :: rest) = (0, t :: rest) := by simp [splitRun, h]
      rw [compactLoop_cons_ne t rest (some s) k hcond, h2]
      have h3 : compactLoop (t :: rest) none 0 = t :: compactLoop rest (some t) 0 := by
        rw [compactLoop_cons_ne t rest none 0 (by simp)]
        simp [repeatsTail]
      rw [h3]
      simp

theorem compactLoop_eq_spec_aux : ∀ (n : Nat) (l : List String), l.length ≤ n →
    compactLoop l none 0 = compactSpecModel l := by
  intro n
  induction n with
  | zero =>
    intro l hl
    have h0 : l = [] := List.length_eq_zero.mp (Nat.le_zero.mp hl)
    subst h0
    simp [compactLoop, repeatsTail, compactSpecModel_nil]
  | succ n ih =>
    intro l hl
    cases l with
    | nil => simp [compactLoop, repeatsTail, compactSpecModel_nil]
    | cons s rest =>
      rw [compactLoop_cons_ne s rest none 0 (by simp)]
      rw [compactLoop_run s rest 0, Nat.zero_add]
      rw [ih (splitRun s rest).2
        (Nat.le_trans (splitRun_length s rest) (Nat.le_of_succ_le_succ hl))]
      rw [compactSpecModel_cons]
      simp [repeatsTail]

theorem CompactStackTrace_eq_spec (l : List String) :
    CompactStackTrace l = compactSpecModel l := by
  rw [CompactStackTrace_eq_loop]
  exact compactLoop_eq_spec_aux l.length l (Nat.le_refl _)

/- ------------------------------------------------------------------ -/
/- Marker-free inputs, adjacent-distinctness, idempotence.             -/
/- ------------------------------------------------------------------ -/

/-- An input trace none of whose frames is itself recognized as a
repeat-marker string. -/
def NoMarkers (l : List String) : Prop :=
  ∀ s ∈ l, decodeMarker s = none

instance : DecidablePred NoMarkers := by
  intro l
  unfold NoMarkers
  infer_instance

theorem NoMarkers_of_mem_sub (l r : List String) (hsub : ∀ x ∈ r, x ∈ l)
    (h : NoMarkers l) : NoMarkers r :=
  fun s hs => h s (hsub s hs)

theorem ne_markerStr_of_decode (s : String) (n : Nat) (h : decodeMarker s = none) :
    s ≠ markerStr n := by
  intro he
  rw [he, decodeMarker_markerStr] at h
  exact Option.noConfusion h

theorem compactSpecModel_headEq (l : List String) (t : String) (ht : l.head? = some t) :
    (compactSpecModel l).head? = some t := by
  cases l with
  | nil => exact Option.noConfusion ht
  | cons s rest =>
    have hst : s = t := Option.some.inj ht
    subst hst
    rw [compactSpecModel_cons]
    rfl

theorem compactSpecModel_chain : ∀ (n : Nat) (l : List String), l.length ≤ n →
    NoMarkers l → List.Chain' (fun a b => a ≠ b) (compactSpecModel l) := by
  intro n
  induction n with
  | zero =>
    intro l hl _
    have h0 : l = [] := List.length_eq_zero.mp (Nat.le_zero.mp hl)
    subst h0
    simp [compactSpecModel_nil]
  | succ n ih =>
    intro l hl hm
    cases l with
    | nil => simp [compactSpecModel_nil]
    | cons s rest =>
      rw [compactSpecModel_cons]
      have hs : decodeMarker s = none := hm s (List.mem_cons_self s rest)
      have hrest : NoMarkers (splitRun s rest).2 := by
        refine NoMarkers_of_mem_sub (s :: rest) _ ?_ hm
        intro x hx
        exact List.mem_cons_of_mem s (splitRun_mem s rest x hx)
      have hchain : List.Chain' (fun a b => a ≠ b) (compactSpecModel (splitRun s rest).2) :=
        ih _ (Nat.le_trans (splitRun_length s rest) (Nat.le_of_succ_le_succ hl)) hrest
      -- head of the compacted remainder differs from `s` and from any marker
      have hheadne : ∀ t, (compactSpecModel (splitRun s rest).2).head? = some t →
          t ≠ s ∧ decodeMarker t = none := by
        intro t ht
        cases hsp : (splitRun s rest).2 with
        | nil => rw [hsp, compactSpecModel_nil] at ht; exact Option.noConfusion ht
        | cons u r' =>
          rw [hsp, compactSpecModel_cons] at ht
          have htu : u = t := Option.some.inj ht
          subst htu
          refine ⟨splitRun_head s rest u (by rw [hsp]; rfl), ?_⟩
          exact hrest u (by rw [hsp]; exact List.mem_cons_self u r')
      by_cases hz : (splitRun s rest).1 = 0
      · rw [hz]
        simp only [repeatsTail, ne_eq, not_true_eq_false, if_false, List.nil_append]
        rw [List.chain'_cons']
        refine ⟨?_, hchain⟩
        intro y hy
        have hy' : (compactSpecModel (splitRun s rest).2).head? = some y :=
          Option.mem_def.mp hy
        exact fun he => (hheadne y hy').1 (by rw [he])
      · rw [repeatsTail, if_pos hz]
        simp only [List.cons_append, List.nil_append]
        rw [List.chain'_cons', List.chain'_cons']
        refine ⟨?_, ?_, hchain⟩
        · intro y hy
          simp only [List.head?_cons, Option.mem_def, Option.some.injEq] at hy
          subst hy
          exact ne_markerStr_of_decode s _ hs
        · intro y hy
          have hy' : (compactSpecModel (splitRun s rest).2).head? = some y :=
            Option.mem_def.mp hy
          intro he
          exact (ne_markerStr_of_decode y _ ((hheadne y hy').2)) he.symm

theorem compactLoop_of_chain : ∀ (l : List String) (p : Option String),
    List.Chain' (fun a b => a ≠ b) l → (∀ t, l.head? = some t → p ≠ some t) →
    compactLoop l p 0 = l := by
  intro l
  induction l with
  | nil => intro p _ _; simp [compactLoop, repeatsTail]
  | cons f rest ih =>
    intro p hchain hp
    rw [compactLoop_cons_ne f rest p 0 (hp f rfl)]
    rw [List.chain'_cons'] at hchain
    have htail : compactLoop rest (some f) 0 = rest := by
      refine ih (some f) hchain.2 ?_
      intro t ht he
      have hf : f = t := Option.some.inj he
      exact (hchain.1 t (Option.mem_def.mpr ht)) hf
    rw [htail]
    simp [repeatsTail]

/- ------------------------------------------------------------------ -/
/- Expansion of repeat markers (specification-side inverse).           -/
/- ------------------------------------------------------------------ -/

/-- Expand the repeat markers in the tail of a compacted trace, given
the most recent real frame `prev`. -/
def expandTail : String → List String → List String
  | _, [] => []
  | prev, e :: rest =>
    match decodeMarker e with
    | some n => List.replicate n prev ++ expandTail prev rest
    | none => e :: expandTail e rest

/-- Expand every repeat marker of a compacted trace back into the
indicated number of copies of the preceding frame. -/
def expandCompact : List String → List String
  | [] => []
  | f :: rest => f :: expandTail f rest

theorem expandTail_spec : ∀ (n : Nat) (l : List String), l.length ≤ n →
    NoMarkers l → ∀ p, expandTail p (compactSpecModel l) = l := by
  intro n
  induction n with
  | zero =>
    intro l hl _ p
    have h0 : l = [] := List.length_eq_zero.mp (Nat.le_zero.mp hl)
    subst h0
    simp [compactSpecModel_nil, expandTail]
  | succ n ih =>
    intro l hl hm p
    cases l with
    | nil => simp [compactSpecModel_nil, expandTail]
    | cons s rest =>
      rw [compactSpecModel_cons]
      have hs : decodeMarker s = none := hm s (List.mem_cons_self s rest)
      have hrest : NoMarkers (splitRun s rest).2 := by
        refine NoMarkers_of_mem_sub (s :: rest) _ ?_ hm
        intro x hx
        exact List.mem_cons_of_mem s (splitRun_mem s rest x hx)
      have hlen : (splitRun s rest).2.length ≤ n :=
        Nat.le_trans (splitRun_length s rest) (Nat.le_of_succ_le_succ hl)
      by_cases hz : (splitRun s rest).1 = 0
      · have hr : (splitRun s rest).2 = rest := by
          have := splitRun_recon s rest
          rw [hz] at this
          simpa using this.symm
        rw [hz]
        simp only [repeatsTail, ne_eq, not_true_eq_false, if_false, List.nil_append]
        show expandTail p (s :: compactSpecModel (splitRun s rest).2) = s :: rest
        simp only [expandTail, hs]
        rw [ih _ hlen hrest s, hr]
      · rw [repeatsTail, if_pos hz]
        simp only [List.cons_append, List.nil_append]
        show expandTail p
            (s :: markerStr (splitRun s rest).1 :: compactSpecModel (splitRun s rest).2) =
          s :: rest
        simp only [expandTail, hs, decodeMarker_markerStr]
        rw [ih _ hlen hrest s]
        have hrec := splitRun_recon s rest
        exact congrArg (s :: ·) hrec.symm

/- ------------------------------------------------------------------ -/
/- Claim theorems for the Frame Compactor.                             -/
/- ------------------------------------------------------------------ -/

/-- C8: `CompactStackTrace` replaces each maximal run of identical
consecutive frames by the first occurrence of the frame followed by a
single marker frame encoding run length minus one, emitting the marker
only when that count is nonzero (this is exactly `compactSpecModel`,
the runs-based model written from the spec); in particular it maps
`[]` to `[]`, `["a","a","a"]` to
`["a", "(previous frame repeated 2 times)"]`, and `["a","b","a"]` to
itself. -/
theorem compactStackTrace_runs_spec :
    (∀ l : List String, CompactStackTrace l = compactSpecModel l) ∧
    CompactStackTrace [] = [] ∧
    CompactStackTrace ["a", "a", "a"] = ["a", "(previous frame repeated 2 times)"] ∧
    CompactStackTrace ["a", "b", "a"] = ["a", "b", "a"] :=
  ⟨CompactStackTrace_eq_spec, by decide, by decide, by decide⟩

/-- C7 counterexample: `CompactStackTrace` is not idempotent on every
input.  On `["a","a","a","(previous frame repeated 2 times)"]` the
first pass emits a marker equal to the adjacent literal input frame,
so a second pass compacts further. -/
theorem compactStackTrace_not_idempotent :
    CompactStackTrace
        (CompactStackTrace ["a", "a", "a", "(previous frame repeated 2 times)"]) ≠
      CompactStackTrace ["a", "a", "a", "(previous frame repeated 2 times)"] := by
  decide

/-- C7 (amended): for every input sequence none of whose frames is
itself recognized as a repeat-marker string, `CompactStackTrace` is
idempotent, and its output never contains two equal adjacent frames. -/
theorem compactStackTrace_idempotent_noMarkers (l : List String) (h : NoMarkers l) :
    CompactStackTrace (CompactStackTrace l) = CompactStackTrace l ∧
    List.Chain' (fun a b => a ≠ b) (CompactStackTrace l) := by
  have hchain : List.Chain' (fun a b => a ≠ b) (CompactStackTrace l) := by
    rw [CompactStackTrace_eq_spec]
    exact compactSpecModel_chain l.length l (Nat.le_refl _) h
  refine ⟨?_, hchain⟩
  rw [CompactStackTrace_eq_loop (CompactStackTrace l)]
  exact compactLoop_of_chain _ none hchain (fun t _ => by simp)

/-- Witness for the amended C7 at the concrete input `["a","a","a"]`. -/
theorem compactStackTrace_idempotent_noMarkers_witness :
    CompactStackTrace (CompactStackTrace ["a", "a", "a"]) =
        CompactStackTrace ["a", "a", "a"] ∧
      List.Chain' (fun a b => a ≠ b) (CompactStackTrace ["a", "a", "a"]) :=
  compactStackTrace_idempotent_noMarkers ["a", "a", "a"] (by decide)

/-- C9 counterexample: expansion of repeat markers does not recover
every input; an input that already contains a marker-shaped frame is
over-expanded. -/
theorem compactStackTrace_roundTrip_fails :
    expandCompact (CompactStackTrace ["a", "(previous frame repeated 2 times)"]) ≠
      ["a", "(previous frame repeated 2 times)"] := by
  decide

/-- C9 (amended): for every input sequence none of whose frames is
itself recognized as a repeat-marker string, expanding each repeat
marker of the compacted output back into the indicated number of
copies of the preceding frame recovers exactly the original
sequence. -/
theorem compactStackTrace_expand_roundTrip (l : List String) (h : NoMarkers l) :
    expandCompact (CompactStackTrace l) = l := by
  rw [CompactStackTrace_eq_spec]
  cases l with
  | nil => simp [compactSpecModel_nil, expandCompact]
  | cons s rest =>
    have hs : decodeMarker s = none := h s (List.mem_cons_self s rest)
    have hmain := expandTail_spec (s :: rest).length (s :: rest) (Nat.le_refl _) h s
    rw [compactSpecModel_cons] at hmain
    simp only [expandTail, hs] at hmain
    rw [compactSpecModel_cons]
    show s :: expandTail s _ = s :: rest
    exact hmain

/-- Witness for the amended C9 at the concrete input `["a","a","b"]`. -/
theorem compactStackTrace_expand_roundTrip_witness :
    expandCompact (CompactStackTrace ["a", "a", "b"]) = ["a", "a", "b"] :=
  compactStackTrace_expand_roundTrip ["a", "a", "b"] (by decide)

/- ------------------------------------------------------------------ -/
/- `StackTracePeer::LaunchLibunwindSandbox` (sandbox2/stack_trace.cc). -/
/- ------------------------------------------------------------------ -/

/-- Externally visible side-effecting steps of the launcher, in the
order they are performed. -/
inductive LEvent where
  | mkdtemp
  | copyMaps
  | readlink
  | copyExe
  | buildPolicy
  | runAsync
  | send
  | recv
  | kill
  | awaitResult
  | deleteTempDir
deriving DecidableEq

/-- Oracle for the environment of one `LaunchLibunwindSandbox` call:
whether each external collaborator step succeeds, the result of the
mount-view resolution, the nested sandbox's final status, and the
frame list carried by the `UnwindResult` reply. -/
structure LaunchEnv where
  mkdtemp_ok : Bool
  copy_maps_ok : Bool
  readlink_ok : Bool
  resolved_path : Option String
  copy_exe_ok : Bool
  policy_ok : Bool
  send_ok : Bool
  recv_ok : Bool
  final_status_ok : Bool
  unwind_frames : List String
deriving DecidableEq

/-- Events and results of the policy build, sandbox start and
request/reply handshake (the part of the launcher after staging). -/
structure HsOut where
  success : Bool
  events : List LEvent
  result_frame_list : Option (List String)
deriving DecidableEq

/-- Policy build, `RunAsync`, `SendProtoBuf`, `RecvProtoBuf`, the
`Kill` on handshake failure, and the final `AwaitResult`:
  - a failed policy build returns before any sandbox is spawned;
  - a failed send skips the receive, kills the sandbox and still awaits
    its final status;
  - a failed receive likewise kills the sandbox and awaits its status;
  - on a completed handshake the call returns success exactly when the
    awaited final status is `Result::OK`. -/
def runPolicyAndHandshake (env : LaunchEnv) : HsOut :=
  if env.policy_ok = false then
    HsOut.mk false [LEvent.buildPolicy] none
  else if env.send_ok = false then
    HsOut.mk false
      [LEvent.buildPolicy, LEvent.runAsync, LEvent.send, LEvent.kill, LEvent.awaitResult]
      none
  else if env.recv_ok = false then
    HsOut.mk false
      [LEvent.buildPolicy, LEvent.runAsync, LEvent.send, LEvent.recv, LEvent.kill,
        LEvent.awaitResult]
      none
  else
    HsOut.mk env.final_status_ok
      [LEvent.buildPolicy, LEvent.runAsync, LEvent.send, LEvent.recv, LEvent.awaitResult]
      (some env.unwind_frames)

/-- Result of the staged part of the launcher (everything inside the
scope guarded by `UnwindTempDirectoryCleanup`), including the files
accumulated inside the scratch directory. -/
structure BodyOut where
  success : Bool
  events : List LEvent
  scratchContents : List String
  result_frame_list : Option (List String)
deriving DecidableEq

/-- The staging steps of the launcher, each short-circuiting to failure:
copy the target's maps file into the scratch directory, resolve
`/proc/pid/exe`, resolve the backing path through the mount view and,
when that yields the empty path, copy `/proc/pid/exe` into the scratch
directory instead; then run the policy build and handshake. -/
def launchStagedBody (env : LaunchEnv) : BodyOut :=
  if env.copy_maps_ok = false then
    BodyOut.mk false [LEvent.copyMaps] [] none
  else if env.readlink_ok = false then
    BodyOut.mk false [LEvent.copyMaps, LEvent.readlink] ["maps"] none
  else if (env.resolved_path.getD "").isEmpty = true ∧ env.copy_exe_ok = false then
    BodyOut.mk false [LEvent.copyMaps, LEvent.readlink, LEvent.copyExe] ["maps"] none
  else
    BodyOut.mk (runPolicyAndHandshake env).success
      ([LEvent.copyMaps, LEvent.readlink] ++
        (if (env.resolved_path.getD "").isEmpty = true then [LEvent.copyExe] else []) ++
        (runPolicyAndHandshake env).events)
      (if (env.resolved_path.getD "").isEmpty = true then ["maps", "exe"] else ["maps"])
      (runPolicyAndHandshake env).result_frame_list

/-- `file_util::fileops::DeleteRecursively` on the scratch directory:
afterwards, the directory and everything in it is absent. -/
def deleteRecursively (_contents : List String) : Option (List String) :=
  none

/-- Full outcome of one `LaunchLibunwindSandbox` call: the returned
boolean, the ordered event trace, the final state of the scratch
directory (`none` = absent from the filesystem), and the `UnwindResult`
frames when the reply was received. -/
structure LaunchOutcome where
  success : Bool
  events : List LEvent
  scratch : Option (List String)
  result_frame_list : Option (List String)
deriving DecidableEq

/-- `StackTracePeer::LaunchLibunwindSandbox`.  If `mkdtemp` fails the
call returns with no directory ever created; otherwise the
`UnwindTempDirectoryCleanup` destructor deletes the scratch directory
recursively when the staging scope ends, on every exit path, after the
body's last step. -/
def LaunchLibunwindSandbox (env : LaunchEnv) : LaunchOutcome :=
  if env.mkdtemp_ok = false then
    LaunchOutcome.mk false [LEvent.mkdtemp] none none
  else
    LaunchOutcome.mk (launchStagedBody env).success
      (LEvent.mkdtemp :: (launchStagedBody env).events ++ [LEvent.deleteTempDir])
      (deleteRecursively (launchStagedBody env).scratchContents)
      (launchStagedBody env).result_frame_list

/- ------------------------------------------------------------------ -/
/- Claim theorems for the launcher.                                    -/
/- ------------------------------------------------------------------ -/

/-- C2: for every environment (hence on every exit path: success,
failure at any staging step, policy-build failure, or
handshake/termination failure) the scratch directory and everything in
it is absent from the filesystem when `LaunchLibunwindSandbox`
returns. -/
theorem launchScratchAlwaysDeleted (env : LaunchEnv) :
    (LaunchLibunwindSandbox env).scratch = none := by
  unfold LaunchLibunwindSandbox
  split_ifs <;> rfl

/-- C3: in every launcher invocation in which the send of the
`UnwindSetup` request or the receive of the `UnwindResult` reply fails,
the event trace is exactly staging, `buildPolicy`, `runAsync`, the
attempted `send` (and the attempted `recv` when the send succeeded),
then `kill`, then `awaitResult`, then the scratch-directory deletion —
so a termination request is issued before the invocation returns, the
final status is still collected, and status collection happens only
after the send/receive attempt and the kill. -/
theorem launchHandshakeFailureKillsThenAwaits (env : LaunchEnv)
    (hmk : env.mkdtemp_ok = true) (hcm : env.copy_maps_ok = true)
    (hrl : env.readlink_ok = true)
    (hexe : (env.resolved_path.getD "").isEmpty = true → env.copy_exe_ok = true)
    (hpo : env.policy_ok = true)
    (hfail : env.send_ok = false ∨ env.recv_ok = false) :
    (LaunchLibunwindSandbox env).events =
      [LEvent.mkdtemp, LEvent.copyMaps, LEvent.readlink] ++
        (if (env.resolved_path.getD "").isEmpty = true then [LEvent.copyExe] else []) ++
        [LEvent.buildPolicy, LEvent.runAsync, LEvent.send] ++
        (if env.send_ok = true then [LEvent.recv] else []) ++
        [LEvent.kill, LEvent.awaitResult, LEvent.deleteTempDir] ∧
    LEvent.kill ∈ (LaunchLibunwindSandbox env).events := by
  obtain ⟨m, cm, rl, rp, ce, po, so, ro, fs, uf⟩ := env
  cases m <;> cases cm <;> cases rl <;> cases po <;> cases so <;> cases ro <;> cases ce <;>
    by_cases he : ((rp.getD "").isEmpty = true) <;>
    simp_all [LaunchLibunwindSandbox, launchStagedBody, runPolicyAndHandshake]

/-- Concrete environment for the C3 witness: staging succeeds, the send
succeeds and the receive fails. -/
def envC3 : LaunchEnv :=
  LaunchEnv.mk true true true (some "/bin/target") true true true false true ["frame"]

/-- Witness for C3 at `envC3`. -/
theorem launchHandshakeFailureKillsThenAwaits_witness :
    (LaunchLibunwindSandbox envC3).events =
      [LEvent.mkdtemp, LEvent.copyMaps, LEvent.readlink] ++
        (if (envC3.resolved_path.getD "").isEmpty = true then [LEvent.copyExe] else []) ++
        [LEvent.buildPolicy, LEvent.runAsync, LEvent.send] ++
        (if envC3.send_ok = true then [LEvent.recv] else []) ++
        [LEvent.kill, LEvent.awaitResult, LEvent.deleteTempDir] ∧
    LEvent.kill ∈ (LaunchLibunwindSandbox envC3).events :=
  launchHandshakeFailureKillsThenAwaits envC3 rfl rfl rfl (fun _ => rfl) rfl (Or.inr rfl)

/-- C4: a launcher invocation returns `true` if and only if the
request/reply handshake completed (the receive was attempted — i.e.,
the send succeeded — and both succeeded) and the nested sandbox's final
termination status is the clean-success status; in particular a
completed handshake followed by an abnormal termination status is
reported as failure. -/
theorem launchSuccessIffHandshakeAndCleanStatus (env : LaunchEnv) :
    (LaunchLibunwindSandbox env).success = true ↔
      (LEvent.recv ∈ (LaunchLibunwindSandbox env).events ∧ env.send_ok = true ∧
        env.recv_ok = true ∧ env.final_status_ok = true) := by
  obtain ⟨m, cm, rl, rp, ce, po, so, ro, fs, uf⟩ := env
  cases m <;> cases cm <;> cases rl <;> cases po <;> cases so <;> cases ro <;> cases ce <;>
    cases fs <;> by_cases he : ((rp.getD "").isEmpty = true) <;>
    simp_all [LaunchLibunwindSandbox, launchStagedBody, runPolicyAndHandshake]

/- ------------------------------------------------------------------ -/
/- `GetStackTrace` (sandbox2/stack_trace.cc).                          -/
/- ------------------------------------------------------------------ -/

/-- Environment of one `GetStackTrace` call: the host CPU, the two
configuration flags, the sanitizer/coverage build signals, whether a
register snapshot was supplied, the frames the non-sandboxed unwinder
would produce, and the launcher environment. -/
structure TraceEnv where
  is_arm64 : Bool
  disable_all_stack_traces : Bool
  libunwind_crash_handler : Bool
  sanitizers_any : Bool
  coverage_env : Bool
  regs_present : Bool
  unsafe_trace : List String
  launch : LaunchEnv
deriving DecidableEq

/-- `sandbox2::UnsafeGetStackTrace` (runs libunwind directly, without a
nested sandbox). -/
def UnsafeGetStackTrace (env : TraceEnv) : List String :=
  env.unsafe_trace

/-- `sandbox2::GetStackTrace`: the layered strategy selection of the
orchestrator, in source order. -/
def GetStackTrace (env : TraceEnv) : List String :=
  if env.is_arm64 = true then ["[Stack traces unavailable]"]
  else if env.disable_all_stack_traces = true then ["[Stacktraces disabled]"]
  else if env.regs_present = false then ["[ERROR (noregs)]"]
  else if env.libunwind_crash_handler = true ∧
      (env.sanitizers_any = true ∨ env.coverage_env = true) then
    UnsafeGetStackTrace env
  else if env.libunwind_crash_handler = false then
    UnsafeGetStackTrace env
  else if (LaunchLibunwindSandbox env.launch).success = true then
    ((LaunchLibunwindSandbox env.launch).result_frame_list).getD []
  else []

/-- C5: whenever the orchestrator selects the nested-sandbox strategy
(armed architecture checks passed, tracing enabled, registers present,
the crash-handler flag set, no sanitizer/coverage signal) and the
launcher fails for any reason, `GetStackTrace` returns the empty
sequence, which is none of the fixed one-element diagnostic
placeholders. -/
theorem getStackTraceNestedFailureEmpty (env : TraceEnv)
    (h1 : env.is_arm64 = false) (h2 : env.disable_all_stack_traces = false)
    (h3 : env.regs_present = true) (h4 : env.libunwind_crash_handler = true)
    (h5 : env.sanitizers_any = false) (h6 : env.coverage_env = false)
    (h7 : (LaunchLibunwindSandbox env.launch).success = false) :
    GetStackTrace env = [] ∧
    GetStackTrace env ≠ ["[Stack traces unavailable]"] ∧
    GetStackTrace env ≠ ["[Stacktraces disabled]"] ∧
    GetStackTrace env ≠ ["[ERROR (noregs)]"] := by
  have hmain : GetStackTrace env = [] := by
    unfold GetStackTrace
    simp [h1, h2, h3, h4, h5, h6, h7]
  refine ⟨hmain, ?_, ?_, ?_⟩ <;> rw [hmain] <;> simp

/-- Concrete environment for the C5 witness: nested-sandbox strategy
selected, launcher fails at the send step. -/
def envC5 : TraceEnv :=
  TraceEnv.mk false false true false false true ["unsafe"]
    (LaunchEnv.mk true true true (some "/bin/target") true true false true true ["frame"])

/-- Witness for C5 at `envC5`. -/
theorem getStackTraceNestedFailureEmpty_witness :
    GetStackTrace envC5 = [] ∧
    GetStackTrace envC5 ≠ ["[Stack traces unavailable]"] ∧
    GetStackTrace envC5 ≠ ["[Stacktraces disabled]"] ∧
    GetStackTrace envC5 ≠ ["[ERROR (noregs)]"] :=
  getStackTraceNestedFailureEmpty envC5 rfl rfl rfl rfl rfl rfl (by decide)

/-- Concrete environment falsifying C6 as stated: registers are absent
but the global disable flag is set, so the disabled placeholder — not
the no-registers placeholder — is returned. -/
def envC6 : TraceEnv :=
  TraceEnv.mk false true true false false false ["unsafe"]
    (LaunchEnv.mk true true true (some "/bin/target") true true true true true ["frame"])

/-- C6 counterexample: with registers absent but the disable flag set,
`GetStackTrace` does not return the no-registers placeholder, so the
claim does not hold for every configuration/environment state. -/
theorem getStackTraceNoRegsNotUniversal :
    envC6.regs_present = false ∧
    GetStackTrace envC6 ≠ ["[ERROR (noregs)]"] ∧
    GetStackTrace envC6 = ["[Stacktraces disabled]"] := by
  refine ⟨rfl, ?_, ?_⟩ <;> decide

/-- C6 (amended): for every mount input and every
configuration/environment state in which the architecture check and the
global disable flag did not already short-circuit, `GetStackTrace`
with an absent register snapshot returns exactly the one-element
no-registers placeholder. -/
theorem getStackTraceNoRegs (env : TraceEnv) (h1 : env.is_arm64 = false)
    (h2 : env.disable_all_stack_traces = false) (h3 : env.regs_present = false) :
    GetStackTrace env = ["[ERROR (noregs)]"] := by
  unfold GetStackTrace
  simp [h1, h2, h3]

/-- Concrete environment for the C6 witness. -/
def envC6w : TraceEnv :=
  TraceEnv.mk false false true false false false ["unsafe"]
    (LaunchEnv.mk true true true (some "/bin/target") true true true true true ["frame"])

/-- Witness for the amended C6 at `envC6w`. -/
theorem getStackTraceNoRegs_witness :
    GetStackTrace envC6w = ["[ERROR (noregs)]"] :=
  getStackTraceNoRegs envC6w rfl rfl rfl

/- ------------------------------------------------------------------ -/
/- `StackTracePeer::GetPolicy`: the `process_vm_readv` rule.           -/
/- ------------------------------------------------------------------ -/

/-- The BPF user policy installed by `StackTracePeer::GetPolicy` for
`__NR_process_vm_readv`: `ARG_32(0)` loads the low 32 bits of the first
syscall argument (the pid) into the accumulator, then
`JEQ32(static_cast<unsigned int>(target_pid), ALLOW)` and
`JEQ32(static_cast<unsigned int>(1), ALLOW)` each allow the call when
the accumulator equals their constant; when neither matches, execution
falls through and the syscall is denied.  No other argument (in
particular no flags/mode argument, here `flagsArg`) is inspected. -/
def processVmReadvAllowed (target_pid : Nat) (arg0 : Nat) (_flagsArg : Nat) : Bool :=
  if arg0 % 2 ^ 32 = target_pid % 2 ^ 32 then true
  else if arg0 % 2 ^ 32 = 1 then true
  else false

/-- C1 counterexample: with target pid 2, a call naming pid 1 (and
flags 0) is allowed even though 1 is not the target pid, so the gated
memory-read operation is not restricted to exactly the target process
identifier. -/
theorem processVmReadvPolicyNotExact :
    processVmReadvAllowed 2 1 0 = true ∧ (1 : Nat) ≠ 2 := by
  refine ⟨?_, ?_⟩ <;> decide

/-- C1 (amended): the policy allows `process_vm_readv` exactly when the
low 32 bits of the pid argument equal the low 32 bits of the target pid
or equal 1; the flags/mode argument is never inspected. -/
theorem processVmReadvPolicyCharacterization (target_pid arg0 flagsArg : Nat) :
    processVmReadvAllowed target_pid arg0 flagsArg = true ↔
      (arg0 % 2 ^ 32 = target_pid % 2 ^ 32 ∨ arg0 % 2 ^ 32 = 1) := by
  unfold processVmReadvAllowed
  split_ifs with h1 h2
  · exact iff_of_true rfl (Or.inl h1)
  · exact iff_of_true rfl (Or.inr h2)
  · exact iff_of_false (by simp) (not_or.mpr ⟨h1, h2⟩)

/- ------------------------------------------------------------------ -/
/- `sapi::v::Pointable` (sandboxed_api/var_pointable.h).               -/
/- ------------------------------------------------------------------ -/

/-- `Pointable::kSyncNone`. -/
def kSyncNone : Nat := 0

/-- `Pointable::kSyncBefore`. -/
def kSyncBefore : Nat := 1

/-- `Pointable::kSyncAfter`. -/
def kSyncAfter : Nat := 2

/-- `Pointable::kSyncBoth = kSyncBefore | kSyncAfter`. -/
def kSyncBoth : Nat := Nat.lor kSyncBefore kSyncAfter

/-- The four `unique_ptr` caches of a `Pointable` object.  `Ptr`
handles are abstracted as natural numbers. -/
structure Pointable where
  ptr_none_ : Option Nat
  ptr_both_ : Option Nat
  ptr_before_ : Option Nat
  ptr_after_ : Option Nat
deriving DecidableEq

/-- Result of one accessor call: the returned handle, the object state
after the call, and the list of `CreatePtr` invocations (by sync mode)
the call performed. -/
structure PtrCall where
  ptr : Nat
  state : Pointable
  createCalls : List Nat
deriving DecidableEq

/-- `Pointable::PtrNone`, with the virtual `CreatePtr` supplied as the
function `create`. -/
def PtrNone (create : Nat → Nat) (p : Pointable) : PtrCall :=
  match p.ptr_none_ with
  | none =>
    PtrCall.mk (create kSyncNone)
      (Pointable.mk (some (create kSyncNone)) p.ptr_both_ p.ptr_before_ p.ptr_after_)
      [kSyncNone]
  | some q => PtrCall.mk q p []

/-- `Pointable::PtrBoth`. -/
def PtrBoth (create : Nat → Nat) (p : Pointable) : PtrCall :=
  match p.ptr_both_ with
  | none =>
    PtrCall.mk (create kSyncBoth)
      (Pointable.mk p.ptr_none_ (some (create kSyncBoth)) p.ptr_before_ p.ptr_after_)
      [kSyncBoth]
  | some q => PtrCall.mk q p []

/-- `Pointable::PtrBefore`. -/
def PtrBefore (create : Nat → Nat) (p : Pointable) : PtrCall :=
  match p.ptr_before_ with
  | none =>
    PtrCall.mk (create kSyncBefore)
      (Pointable.mk p.ptr_none_ p.ptr_both_ (some (create kSyncBefore)) p.ptr_after_)
      [kSyncBefore]
  | some q => PtrCall.mk q p []

/-- `Pointable::PtrAfter`. -/
def PtrAfter (create : Nat → Nat) (p : Pointable) : PtrCall :=
  match p.ptr_after_ with
  | none =>
    PtrCall.mk (create kSyncAfter)
      (Pointable.mk p.ptr_none_ p.ptr_both_ p.ptr_before_ (some (create kSyncAfter)))
      [kSyncAfter]
  | some q => PtrCall.mk q p []

/-- C10: starting from an object with all four caches empty, each
accessor's first call invokes `CreatePtr` exactly once with its
synchronization mode, returns that handle and caches it; a subsequent
call to the same accessor performs no `CreatePtr` call, returns the
identical cached handle and leaves the object state unchanged (hence,
by iterating the fixed point, every subsequent call does). -/
theorem pointableAccessorsCacheOnce (create : Nat → Nat) (p : Pointable)
    (hn : p.ptr_none_ = none) (hb : p.ptr_both_ = none)
    (hbe : p.ptr_before_ = none) (ha : p.ptr_after_ = none) :
    PtrNone create p =
      PtrCall.mk (create kSyncNone)
        (Pointable.mk (some (create kSyncNone)) p.ptr_both_ p.ptr_before_ p.ptr_after_)
        [kSyncNone] ∧
    PtrNone create (PtrNone create p).state =
      PtrCall.mk (create kSyncNone) (PtrNone create p).state [] ∧
    PtrBoth create p =
      PtrCall.mk (create kSyncBoth)
        (Pointable.mk p.ptr_none_ (some (create kSyncBoth)) p.ptr_before_ p.ptr_after_)
        [kSyncBoth] ∧
    PtrBoth create (PtrBoth create p).state =
      PtrCall.mk (create kSyncBoth) (PtrBoth create p).state [] ∧
    PtrBefore create p =
      PtrCall.mk (create kSyncBefore)
        (Pointable.mk p.ptr_none_ p.ptr_both_ (some (create kSyncBefore)) p.ptr_after_)
        [kSyncBefore] ∧
    PtrBefore create (PtrBefore create p).state =
      PtrCall.mk (create kSyncBefore) (PtrBefore create p).state [] ∧
    PtrAfter create p =
      PtrCall.mk (create kSyncAfter)
        (Pointable.mk p.ptr_none_ p.ptr_both_ p.ptr_before_ (some (create kSyncAfter)))
        [kSyncAfter] ∧
    PtrAfter create (PtrAfter create p).state =
      PtrCall.mk (create kSyncAfter) (PtrAfter create p).state [] := by
  obtain ⟨pn, pb, pbe, pa⟩ := p
  simp only at hn hb hbe ha
  subst hn; subst hb; subst hbe; subst ha
  simp [PtrNone, PtrBoth, PtrBefore, PtrAfter]

/-- Witness for C10 at a fresh object and the handle factory
`fun s => s + 100`. -/
theorem pointableAccessorsCacheOnce_witness :
    PtrNone (fun s => s + 100) (Pointable.mk none none none none) =
      PtrCall.mk (kSyncNone + 100)
        (Pointable.mk (some (kSyncNone + 100)) none none none) [kSyncNone] ∧
    PtrNone (fun s => s + 100)
        (PtrNone (fun s => s + 100) (Pointable.mk none none none none)).state =
      PtrCall.mk (kSyncNone + 100)
        (PtrNone (fun s => s + 100) (Pointable.mk none none none none)).state [] ∧
    PtrBoth (fun s => s + 100) (Pointable.mk none none none none) =
      PtrCall.mk (kSyncBoth + 100)
        (Pointable.mk none (some (kSyncBoth + 100)) none none) [kSyncBoth] ∧
    PtrBoth (fun s => s + 100)
        (PtrBoth (fun s => s + 100) (Pointable.mk none none none none)).state =
      PtrCall.mk (kSyncBoth + 100)
        (PtrBoth (fun s => s + 100) (Pointable.mk none none none none)).state [] ∧
    PtrBefore (fun s => s + 100) (Pointable.mk none none none none) =
      PtrCall.mk (kSyncBefore + 100)
        (Pointable.mk none none (some (kSyncBefore + 100)) none) [kSyncBefore] ∧
    PtrBefore (fun s => s + 100)
        (PtrBefore (fun s => s + 100) (Pointable.mk none none none none)).state =
      PtrCall.mk (kSyncBefore + 100)
        (PtrBefore (fun s => s + 100) (Pointable.mk none none none none)).state [] ∧
    PtrAfter (fun s => s + 100) (Pointable.mk none none none none) =
      PtrCall.mk (kSyncAfter + 100)
        (Pointable.mk none none none (some (kSyncAfter + 100))) [kSyncAfter] ∧
    PtrAfter (fun s => s + 100)
        (PtrAfter (fun s => s + 100) (Pointable.mk none none none none)).state =
      PtrCall.mk (kSyncAfter + 100)
        (PtrAfter (fun s => s + 100) (Pointable.mk none none none none)).state [] :=
  pointableAccessorsCacheOnce (fun s => s + 100) (Pointable.mk none none none none)
    rfl rfl rfl rfl
